import Mathlib

set_option autoImplicit false

/-!
Verification development for the watcher/orchestrator lifecycle engine.

The Python sources `src/watchers/base_watcher.py` and
`src/watchers/orchestrator.py` are shallowly embedded below:

* `sanitize_filename` embeds `BaseWatcher.sanitize_filename` (string
  replacement of the characters of the literal `'<>:"/\\|？*'` followed by
  `str.strip()`).
* The orchestrator's filesystem state (vault directories, the structured
  jsonl action log, the dashboard artifact and the Python-logging console
  stream) is embedded as `VaultState`; each mutating method becomes an
  explicit state-passing function.  Fallible I/O primitives (reading a
  file, writing a plan, the approved→done rename) are driven by an
  `Oracle` telling which concrete calls raise, mirroring the exception
  paths of the source.
-/

/-- Python's `str.isspace` character class (the set stripped by
`str.strip()` with no arguments), by code point. -/
def pyIsSpace (c : Char) : Bool :=
  [9, 10, 11, 12, 13, 28, 29, 30, 31, 32, 0x85, 0xA0, 0x1680,
   0x2000, 0x2001, 0x2002, 0x2003, 0x2004, 0x2005, 0x2006, 0x2007,
   0x2008, 0x2009, 0x200A, 0x2028, 0x2029, 0x202F, 0x205F, 0x3000].contains c.toNat

/-- The character string `'<>:"/\\|？*'` from `BaseWatcher.sanitize_filename`
(`base_watcher.py` line 127).  Note that it contains the full-width
question mark U+FF1F and not the ASCII `?`. -/
def invalid_chars : List Char := ['<', '>', ':', '\"', '/', '\\', '|', '？', '*']

/-- Python `name.replace(char, '_')` for a single-character pattern. -/
def replaceChar (l : List Char) (c : Char) : List Char :=
  l.map fun x => if x = c then '_' else x

/-- Removal of leading whitespace (the left half of `str.strip()`). -/
def stripLeft (l : List Char) : List Char := l.dropWhile pyIsSpace

/-- Removal of trailing whitespace (the right half of `str.strip()`). -/
def stripRight : List Char → List Char
  | [] => []
  | c :: t =>
    match stripRight t with
    | [] => if pyIsSpace c then [] else [c]
    | x :: xs => c :: x :: xs

/-- Python `str.strip()`: drop leading and trailing whitespace. -/
def pyStrip (l : List Char) : List Char := stripRight (stripLeft l)

/-- Embeds `BaseWatcher.sanitize_filename` (`base_watcher.py` lines 124-130):
sequentially replace each character of `invalid_chars` with `'_'`, then
strip leading/trailing whitespace. -/
def sanitize_filename (s : String) : String :=
  String.mk (pyStrip (invalid_chars.foldl replaceChar s.data))

/-- Pointwise form of the sequential replacement loop. -/
def replacePointwise (l : List Char) : List Char :=
  l.map fun x => if x ∈ invalid_chars then '_' else x

theorem foldl_replaceChar_eq_map (cs : List Char) (hcs : '_' ∉ cs) (l : List Char) :
    cs.foldl replaceChar l = l.map fun x => if x ∈ cs then '_' else x := by
  induction cs generalizing l with
  | nil =>
    simp [List.foldl]
  | cons c cs ih =>
    have hu : '_' ∉ cs := fun h => hcs (List.mem_cons_of_mem _ h)
    have huc : ('_' : Char) ≠ c := by
      intro h
      exact hcs (h ▸ List.mem_cons_self _ _)
    rw [List.foldl_cons, ih hu]
    unfold replaceChar
    rw [List.map_map]
    apply List.map_congr_left
    intro a _
    by_cases hac : a = c
    · subst hac
      simp [if_neg huc, hu]
    · simp only [Function.comp, if_neg hac]
      by_cases ham : a ∈ cs
      · simp [ham]
      · have : a ∉ (c :: cs) := by
          intro h
          rcases List.mem_cons.mp h with h | h
          · exact hac h
          · exact ham h
        simp [ham, this]

theorem sanitize_eq_pointwise (s : String) :
    sanitize_filename s = String.mk (pyStrip (replacePointwise s.data)) := by
  unfold sanitize_filename replacePointwise
  rw [foldl_replaceChar_eq_map invalid_chars (by decide) s.data]

theorem mem_stripRight {x : Char} : ∀ {l : List Char}, x ∈ stripRight l → x ∈ l := by
  intro l
  induction l with
  | nil => intro h; exact absurd h (by simp [stripRight])
  | cons c t ih =>
    intro h
    unfold stripRight at h
    rcases hst : stripRight t with _ | ⟨y, ys⟩
    · rw [hst] at h
      by_cases hc : pyIsSpace c
      · simp [hc] at h
      · simp [hc] at h
        simp [h]
    · rw [hst] at h
      rcases List.mem_cons.mp h with h | h
      · simp [h]
      · exact List.mem_cons_of_mem _ (ih (hst ▸ h))

theorem mem_dropWhile {p : Char → Bool} {x : Char} :
    ∀ {l : List Char}, x ∈ l.dropWhile p → x ∈ l := by
  intro l
  induction l with
  | nil => intro h; simp at h
  | cons c t ih =>
    intro h
    rw [List.dropWhile_cons] at h
    by_cases hc : p c
    · simp only [hc, if_true] at h
      exact List.mem_cons_of_mem _ (ih h)
    · simp only [hc] at h
      simpa using h

theorem mem_pyStrip {x : Char} {l : List Char} (h : x ∈ pyStrip l) : x ∈ l :=
  mem_dropWhile (mem_stripRight h)

/-- The head of a list, if any, after `dropWhile pyIsSpace` is not a space. -/
def headNotSpace : List Char → Prop
  | [] => True
  | c :: _ => pyIsSpace c = false

theorem headNotSpace_stripLeft (l : List Char) : headNotSpace (stripLeft l) := by
  induction l with
  | nil => trivial
  | cons c t ih =>
    unfold stripLeft at *
    rw [List.dropWhile_cons]
    by_cases hc : pyIsSpace c
    · simpa [hc] using ih
    · simp only [hc]
      exact eq_false_of_ne_true hc

theorem stripLeft_of_headNotSpace {l : List Char} (h : headNotSpace l) :
    stripLeft l = l := by
  cases l with
  | nil => rfl
  | cons c t =>
    unfold stripLeft
    rw [List.dropWhile_cons]
    simp [headNotSpace] at h
    simp [h]

theorem headNotSpace_stripRight {l : List Char} (h : headNotSpace l) :
    headNotSpace (stripRight l) := by
  cases l with
  | nil => trivial
  | cons c t =>
    simp only [headNotSpace] at h
    unfold stripRight
    rcases hst : stripRight t with _ | ⟨y, ys⟩
    · by_cases hc : pyIsSpace c
      · rw [h] at hc; exact absurd hc (by simp)
      · simp [headNotSpace, hc]
    · simpa [headNotSpace] using h

theorem stripRight_cons (c : Char) (t : List Char) :
    stripRight (c :: t) = match stripRight t with
      | [] => if pyIsSpace c then [] else [c]
      | x :: xs => c :: x :: xs := rfl

theorem stripRight_idem : ∀ (l : List Char), stripRight (stripRight l) = stripRight l := by
  intro l
  induction l with
  | nil => rfl
  | cons c t ih =>
    rcases hst : stripRight t with _ | ⟨y, ys⟩
    · by_cases hc : pyIsSpace c
      · have h1 : stripRight (c :: t) = [] := by rw [stripRight_cons, hst]; simp [hc]
        rw [h1]
        rfl
      · have h1 : stripRight (c :: t) = [c] := by rw [stripRight_cons, hst]; simp [hc]
        rw [h1, stripRight_cons]
        simp [stripRight, hc]
    · have h1 : stripRight (c :: t) = c :: y :: ys := by rw [stripRight_cons, hst]
      rw [hst] at ih
      rw [h1, stripRight_cons, ih]

theorem pyStrip_idem (l : List Char) : pyStrip (pyStrip l) = pyStrip l := by
  unfold pyStrip
  rw [stripLeft_of_headNotSpace (headNotSpace_stripRight (headNotSpace_stripLeft l)),
    stripRight_idem]

theorem replacePointwise_fixed {x : Char} :
    (if (if x ∈ invalid_chars then '_' else x) ∈ invalid_chars then '_'
     else if x ∈ invalid_chars then '_' else x) = if x ∈ invalid_chars then '_' else x := by
  by_cases hx : x ∈ invalid_chars
  · simp [hx]
  · simp [hx]

theorem replacePointwise_idem (l : List Char) :
    replacePointwise (replacePointwise l) = replacePointwise l := by
  unfold replacePointwise
  rw [List.map_map]
  apply List.map_congr_left
  intro a _
  exact replacePointwise_fixed

theorem replacePointwise_def (l : List Char) :
    replacePointwise l = l.map fun x => if x ∈ invalid_chars then '_' else x := rfl

theorem replacePointwise_on_strip (l : List Char) :
    replacePointwise (pyStrip (replacePointwise l)) = pyStrip (replacePointwise l) := by
  have h : ∀ x ∈ pyStrip (replacePointwise l),
      (if x ∈ invalid_chars then '_' else x) = id x := by
    intro x hx
    have hx' : x ∈ replacePointwise l := mem_pyStrip hx
    rw [replacePointwise_def] at hx'
    rcases List.mem_map.mp hx' with ⟨a, _, ha⟩
    subst ha
    simp only [id]
    exact replacePointwise_fixed
  rw [replacePointwise_def (pyStrip (replacePointwise l))]
  rw [List.map_congr_left h, List.map_id]

/-- Claim C4 counterexample: `sanitize_filename` leaves the ASCII question
mark `?` (and the full-width asterisk `＊`) in place, so it does not
replace every character of the set `< > : \" / \\ | ? *` together with its
full-width variant, and its result can contain such characters. -/
theorem sanitize_keeps_ascii_question_mark :
    sanitize_filename "a?b" = "a?b" ∧ ('?' ∈ (sanitize_filename "a?b").data)
    ∧ sanitize_filename "＊" = "＊" := by
  refine ⟨by decide, by decide, by decide⟩

/-- Claim C4 (amended): `sanitize_filename s` equals `s` with every
occurrence of the nine characters of the source literal `'<>:\"/\\|？*'`
(i.e. `<`, `>`, `:`, `\"`, `/`, `\\`, `|`, the full-width question mark
U+FF1F, `*` - ASCII `?` and the other full-width variants are not in the
set) replaced by an underscore and the result then trimmed of leading and
trailing whitespace; the result contains none of those nine characters. -/
theorem sanitize_filename_spec (s : String) :
    sanitize_filename s
      = String.mk (pyStrip (s.data.map fun x => if x ∈ invalid_chars then '_' else x))
    ∧ (sanitize_filename s).data.all (fun c => !(invalid_chars.contains c)) = true := by
  constructor
  · exact sanitize_eq_pointwise s
  · rw [sanitize_eq_pointwise s]
    rw [List.all_eq_true]
    intro c hc
    have hc' : c ∈ pyStrip (replacePointwise s.data) := hc
    have : c ∈ replacePointwise s.data := mem_pyStrip hc'
    unfold replacePointwise at this
    rcases List.mem_map.mp this with ⟨a, _, ha⟩
    subst ha
    by_cases hai : a ∈ invalid_chars
    · simp [hai]
      decide
    · simp [hai]

/-- Claim C5: `sanitize_filename` is idempotent. -/
theorem sanitize_filename_idem (s : String) :
    sanitize_filename (sanitize_filename s) = sanitize_filename s := by
  rw [sanitize_eq_pointwise s, sanitize_eq_pointwise]
  show String.mk (pyStrip (replacePointwise (pyStrip (replacePointwise s.data))))
    = String.mk (pyStrip (replacePointwise s.data))
  rw [replacePointwise_on_strip, pyStrip_idem]

/-!
## Orchestrator embedding (`src/watchers/orchestrator.py`)

Filenames are modelled as stem/extension pairs (`Path.stem` /
`Path.suffix`); a directory is a list of `FileEntry` (name, content,
modification day).  `glob('*.md')` is a filter on the extension,
`Path.write_text` overwrites by name, `Path.rename` removes the entry
from the source directory and writes it (keeping its modification time)
into the destination.  Python-logging output is recorded as a list of
`ConsoleMsg` events, one constructor per `self.logger.…` call site; the
structured jsonl action log is the list `log` of `LogEntry` records.
-/

structure FName where
  stem : String
  ext : String
deriving DecidableEq, Repr

def FName.full (n : FName) : String := n.stem ++ "." ++ n.ext

structure FileEntry where
  name : FName
  content : String
  mtime : Nat
deriving DecidableEq, Repr

structure LogEntry where
  timestamp : String
  action_type : String
  actor : String
  target : String
  result : String
deriving DecidableEq, Repr

inductive ConsoleMsg where
  | processing (name : String)
  | createdPlan (name : String)
  | errorProcessing (name : String)
  | noFilesToProcess
  | foundFiles (n : Nat)
  | processedFiles (n : Nat)
  | noApprovedFiles
  | foundApproved (n : Nat)
  | executingApproved (name : String)
  | movedToDone (name : String)
  | errorExecuting (name : String)
  | updatingDashboard
  | dashboardUpdated
  | runningCycle
  | cycleComplete
deriving DecidableEq, Repr

structure VaultState where
  inboxExists : Bool
  inbox : List FileEntry
  needs_action : List FileEntry
  plans : List FileEntry
  pending_approval : List FileEntry
  approved : List FileEntry
  done : List FileEntry
  existingDirs : List String
  dashboard : Option String
  log : List LogEntry
  console : List ConsoleMsg
deriving Repr

/-- The ambient wall clock: `datetime.now().isoformat()`,
`datetime.now().strftime('%Y-%m-%d %H:%M:%S')` and the current day
(`datetime.now().date()`, as a day number). -/
structure Env where
  isoNow : String
  fmtNow : String
  today : Nat
deriving Repr

/-- Which concrete I/O calls raise an exception during a cycle:
`read_text` on a given file, the plan `write_text` for a given source
file, and the approved→done `rename` of a given file. -/
structure Oracle where
  readFails : FName → Bool
  writePlanFails : FName → Bool
  renameFails : FName → Bool

def consoleLog (s : VaultState) (m : ConsoleMsg) : VaultState :=
  { s with console := s.console ++ [m] }

/-- Python `glob('*.md')` on a directory listing. -/
def mdFiles (d : List FileEntry) : List FileEntry :=
  d.filter fun f => f.name.ext == "md"

/-- Whether the directory holds a file of the given name. -/
def inDir (d : List FileEntry) (n : FName) : Bool :=
  d.any fun f => f.name == n

/-- Python `Path.write_text`: create or overwrite the file of that name. -/
def writeFile (d : List FileEntry) (n : FName) (c : String) (mt : Nat) : List FileEntry :=
  d.filter (fun f => f.name != n) ++ [⟨n, c, mt⟩]

/-- Removal half of `Path.rename`. -/
def eraseFile (d : List FileEntry) (n : FName) : List FileEntry :=
  d.filter fun f => f.name != n

/-- The record appended by `Orchestrator._log_action` (lines 376-396):
`result` is the constant `'success'`. -/
def mkLogEntry (env : Env) (action_type target : String) : LogEntry :=
  { timestamp := env.isoNow, action_type := action_type, actor := "orchestrator",
    target := target, result := "success" }

/-- Embeds `Orchestrator._log_action`: append one entry to the day's jsonl log. -/
def log_action (env : Env) (s : VaultState) (action_type target : String) : VaultState :=
  { s with log := s.log ++ [mkLogEntry env action_type target] }

/-- The `Dashboard.md` text produced by `Orchestrator.update_dashboard`
(lines 291-365), as a function of the four counts. -/
def dashboardContent (env : Env) (inbox_count needs_action_count pending_count done_today : Nat) : String :=
  "---\nlast_updated: " ++ env.isoNow ++ "\nstatus: active\n---\n\n"
  ++ "# AI Employee Dashboard\n\n> **Last Refresh:** " ++ env.fmtNow ++ "\n\n"
  ++ "## 📊 Quick Stats\n\n| Metric | Value |\n|--------|-------|\n"
  ++ "| Pending Tasks | " ++ toString needs_action_count ++ " |\n"
  ++ "| Awaiting Approval | " ++ toString pending_count ++ " |\n"
  ++ "| Completed Today | " ++ toString done_today ++ " |\n"
  ++ "| Revenue MTD | $0 |\n\n---\n\n"
  ++ "## 📥 Inbox Status\n\n| Folder | Count |\n|--------|-------|\n"
  ++ "| /Inbox | " ++ toString inbox_count ++ " |\n"
  ++ "| /Needs_Action | " ++ toString needs_action_count ++ " |\n"
  ++ "| /Pending_Approval | " ++ toString pending_count ++ " |\n\n---\n\n"
  ++ "## ✅ Recent Activity\n\n*Check /Done folder for completed tasks.*\n\n---\n\n"
  ++ "## 📈 Business Health\n\n### Revenue Tracking\n- **Monthly Goal:** $10,000\n"
  ++ "- **Current MTD:** $0 (0%)\n- **Projected:** On track\n\n"
  ++ "### Active Projects\n1. *No active projects*\n\n---\n\n"
  ++ "## 🤖 System Status\n\n| Component | Status |\n|-----------|--------|\n"
  ++ "| Gmail Watcher | ⚪ Not Running |\n| File Watcher | 🟢 Running |\n"
  ++ "| Orchestrator | 🟢 Active |\n\n---\n\n"
  ++ "## 📝 Quick Commands\n\n```bash\n# Start File Watcher\npython watchers/filesystem_watcher.py\n\n"
  ++ "# Process Needs_Action folder\npython watchers/orchestrator.py --process\n\n"
  ++ "# Process approved actions\npython watchers/orchestrator.py --approved\n```\n\n---\n\n"
  ++ "*Generated by AI Employee v0.1 (Bronze Tier)*\n"

/-- Embeds `Orchestrator.update_dashboard` (lines 277-368): recount the four
folders and fully overwrite `Dashboard.md`.  Note line 284 of the
source: `pending_count = len(list(self.approved.glob('*.md')))` counts
the *Approved* directory. -/
def update_dashboard (env : Env) (s : VaultState) : VaultState :=
  let s := consoleLog s .updatingDashboard
  let inbox_count := if s.inboxExists then s.inbox.length else 0
  let needs_action_count := (mdFiles s.needs_action).length
  let pending_count := (mdFiles s.approved).length
  let done_today := (s.done.filter fun f => f.name.ext == "md" && f.mtime == env.today).length
  let content := dashboardContent env inbox_count needs_action_count pending_count done_today
  let s := { s with dashboard := some content }
  consoleLog s .dashboardUpdated

/-- Embeds `Orchestrator._create_process_prompt` (lines 148-176); the result is
computed and then never used by `_process_single_file`. -/
def create_process_prompt (f : FileEntry) : String :=
  "\nYou are processing an action file from the AI Employee system.\n\nFile: "
  ++ f.name.full ++ "\nContent:\n" ++ f.content
  ++ "\n\n---\n\nPlease:\n1. Analyze the content and determine what action is needed\n"
  ++ "2. Check Company_Handbook.md for rules and guidelines\n"
  ++ "3. Create a step-by-step plan in Plans/ folder\n"
  ++ "4. If action requires approval, create file in /Pending_Approval\n"
  ++ "5. If action can be auto-completed, execute and move to /Done\n\n"
  ++ "Remember to follow the Human-in-the-Loop pattern for sensitive actions.\n"

/-- Embeds `Orchestrator._create_plan_template` (lines 178-223). -/
def create_plan_template (env : Env) (f : FileEntry) : String :=
  "---\ncreated: " ++ env.isoNow ++ "\nstatus: pending\nsource_file: " ++ f.name.full
  ++ "\ntype: action_plan\n---\n\n# Action Plan: " ++ f.name.stem
  ++ "\n\n## Objective\n*Describe the main objective here*\n\n"
  ++ "## Context\n*Summary of the situation based on the action file*\n\n"
  ++ "## Steps\n- [ ] Analyze the request\n- [ ] Check Company_Handbook.md for applicable rules\n"
  ++ "- [ ] Determine if approval is required\n- [ ] Execute action or create approval request\n"
  ++ "- [ ] Log the action\n- [ ] Move to /Done when complete\n\n"
  ++ "## Notes\n*Add any relevant notes here*\n\n"
  ++ "## Approval Required?\n- [ ] Yes → Created file in /Pending_Approval\n"
  ++ "- [ ] No → Can proceed autonomously\n\n---\n*Generated by Orchestrator v0.1*\n"

/-- The name `PLAN_<stem>.md` of the companion plan of a source file
(line 139 of the source). -/
def planFName (f : FileEntry) : FName := ⟨"PLAN_" ++ f.name.stem, "md"⟩

/-- Embeds `Orchestrator._process_single_file` (lines 120-146): log at the
console, read the file, log a `process_file` record, write the plan file
`Plans/PLAN_<stem>.md` (this raises when the `Plans` directory does not
exist, or when the oracle says the write raises), then regenerate the
dashboard.  Returns the partially-updated state and whether the call
completed without raising. -/
def process_single_file (env : Env) (o : Oracle) (s : VaultState) (f : FileEntry) :
    VaultState × Bool :=
  let s := consoleLog s (.processing f.name.full)
  if o.readFails f.name then (s, false)
  else
    let _prompt := create_process_prompt f
    let s := log_action env s "process_file" f.name.full
    if o.writePlanFails f.name || !(s.existingDirs.contains "Plans") then (s, false)
    else
      let s := { s with plans := writeFile s.plans (planFName f) (create_plan_template env f) env.today }
      let s := consoleLog s (.createdPlan (planFName f).full)
      (update_dashboard env s, true)

/-- The body of the `for` loop of `process_needs_action` (lines 110-115):
`try: self._process_single_file(file_path); processed += 1 except: log`. -/
def naStep (env : Env) (o : Oracle) (acc : VaultState × Nat) (f : FileEntry) : VaultState × Nat :=
  let p := process_single_file env o acc.1 f
  if p.2 then (p.1, acc.2 + 1)
  else (consoleLog p.1 (.errorProcessing f.name.full), acc.2)

/-- Embeds `Orchestrator.process_needs_action` (lines 92-118): list the `.md`
files of `Needs_Action`, process each, catching per-file exceptions, and
return the number that succeeded. -/
def process_needs_action (env : Env) (o : Oracle) (s : VaultState) : VaultState × Nat :=
  let files := mdFiles s.needs_action
  if files.isEmpty then
    (consoleLog s .noFilesToProcess, 0)
  else
    let s := consoleLog s (.foundFiles files.length)
    let r := files.foldl (naStep env o) (s, 0)
    (consoleLog r.1 (.processedFiles r.2), r.2)

/-- Embeds `Orchestrator._execute_approved_action` (lines 250-275): log at the
console, read the file, append an `execute_approved` record, then
`rename` the file from `Approved` to `Done` (atomic: it either raises,
leaving the source in place, or fully moves the entry, keeping its
modification time), then regenerate the dashboard. -/
def execute_approved_action (env : Env) (o : Oracle) (s : VaultState) (f : FileEntry) :
    VaultState × Bool :=
  let s := consoleLog s (.executingApproved f.name.full)
  if o.readFails f.name then (s, false)
  else
    let s := log_action env s "execute_approved" f.name.full
    if o.renameFails f.name then (s, false)
    else
      let s := { s with approved := eraseFile s.approved f.name,
                        done := writeFile s.done f.name f.content f.mtime }
      let s := consoleLog s (.movedToDone f.name.full)
      (update_dashboard env s, true)

/-- The body of the `for` loop of `process_approved` (lines 241-246):
`try: self._execute_approved_action(file_path); processed += 1 except: log`. -/
def apStep (env : Env) (o : Oracle) (acc : VaultState × Nat) (f : FileEntry) : VaultState × Nat :=
  let p := execute_approved_action env o acc.1 f
  if p.2 then (p.1, acc.2 + 1)
  else (consoleLog p.1 (.errorExecuting f.name.full), acc.2)

/-- Embeds `Orchestrator.process_approved` (lines 225-248): list the `.md`
files of `Approved`, execute each, catching per-file exceptions, and
return the number that succeeded. -/
def process_approved (env : Env) (o : Oracle) (s : VaultState) : VaultState × Nat :=
  let files := mdFiles s.approved
  if files.isEmpty then
    (consoleLog s .noApprovedFiles, 0)
  else
    let s := consoleLog s (.foundApproved files.length)
    files.foldl (apStep env o) (s, 0)

/-- Embeds `Orchestrator.run_once` (lines 428-441): one cycle, in the fixed
order approved → intake → dashboard. -/
def run_once (env : Env) (o : Oracle) (s : VaultState) : VaultState :=
  let s := consoleLog s .runningCycle
  let s := (process_approved env o s).1
  let s := (process_needs_action env o s).1
  let s := update_dashboard env s
  consoleLog s .cycleComplete

/-- The directory list of the `mkdir` loop in `Orchestrator.__init__`
(lines 65-67): `[self.needs_action, self.approved, self.done, self.logs]`. -/
def initDirFolders : List String := ["Needs_Action", "Approved", "Done", "Logs"]

/-- Python `folder.mkdir(parents=True, exist_ok=True)`: idempotent creation. -/
def mkdirIdem (dirs : List String) (d : String) : List String :=
  if dirs.contains d then dirs else dirs ++ [d]

/-- The directory-creation effect of `Orchestrator.__init__` (the
logging setup touches only the `Logs` directory already in the list). -/
def orchestratorInit (s : VaultState) : VaultState :=
  { s with existingDirs := initDirFolders.foldl mkdirIdem s.existingDirs }

/-! ### Directory primitive lemmas -/

theorem inDir_of_mem {d : List FileEntry} {f : FileEntry} (h : f ∈ d) :
    inDir d f.name = true := by
  unfold inDir
  rw [List.any_eq_true]
  exact ⟨f, h, by simp⟩

theorem inDir_eraseFile_self (d : List FileEntry) (n : FName) :
    inDir (eraseFile d n) n = false := by
  unfold inDir eraseFile
  rw [List.any_eq_false]
  intro f hf
  have hmem := List.mem_filter.mp hf
  simp only [bne_iff_ne, ne_eq] at hmem
  simp only [beq_iff_eq]
  exact hmem.2

theorem inDir_writeFile_self (d : List FileEntry) (n : FName) (c : String) (mt : Nat) :
    inDir (writeFile d n c mt) n = true := by
  unfold inDir writeFile
  rw [List.any_eq_true]
  refine ⟨⟨n, c, mt⟩, ?_, by simp⟩
  exact List.mem_append_right _ (List.mem_singleton.mpr rfl)

theorem inDir_writeFile_of_ne {m n : FName} (h : m ≠ n) (d : List FileEntry)
    (c : String) (mt : Nat) : inDir (writeFile d n c mt) m = inDir d m := by
  unfold inDir writeFile
  rw [List.any_append]
  have h1 : List.any [(⟨n, c, mt⟩ : FileEntry)] (fun f => f.name == m) = false := by
    simp
    exact fun hnm => h hnm.symm
  rw [h1, Bool.or_false]
  induction d with
  | nil => rfl
  | cons g t ih =>
    rw [List.filter_cons]
    by_cases hg : g.name = n
    · have : (g.name != n) = false := by simp [hg]
      rw [this]
      simp only [Bool.false_eq_true, if_false]
      rw [ih, List.any_cons]
      have : (g.name == m) = false := by
        simp [hg]
        exact fun hnm => h hnm.symm
      rw [this]
      simp
    · have : (g.name != n) = true := by simp [hg]
      rw [this]
      simp only [if_true]
      rw [List.any_cons, List.any_cons, ih]

theorem inDir_eraseFile_of_ne {m n : FName} (h : m ≠ n) (d : List FileEntry) :
    inDir (eraseFile d n) m = inDir d m := by
  unfold inDir eraseFile
  induction d with
  | nil => rfl
  | cons g t ih =>
    rw [List.filter_cons]
    by_cases hg : g.name = n
    · have hb : (g.name != n) = false := by simp [hg]
      rw [hb]
      simp only [Bool.false_eq_true, if_false]
      rw [ih, List.any_cons]
      have : (g.name == m) = false := by
        simp [hg]
        exact fun hnm => h hnm.symm
      rw [this]
      simp
    · have hb : (g.name != n) = true := by simp [hg]
      rw [hb]
      simp only [if_true]
      rw [List.any_cons, List.any_cons, ih]

theorem mem_eraseFile_of_ne {f : FileEntry} {d : List FileEntry} {n : FName}
    (hf : f ∈ d) (hne : f.name ≠ n) : f ∈ eraseFile d n := by
  unfold eraseFile
  exact List.mem_filter.mpr ⟨hf, by simp [hne]⟩

/-! ### One-step specification lemmas -/

theorem update_dashboard_spec (env : Env) (s : VaultState) :
    update_dashboard env s = { s with
      console := s.console ++ [.updatingDashboard, .dashboardUpdated],
      dashboard := some (dashboardContent env
        (if s.inboxExists then s.inbox.length else 0)
        (mdFiles s.needs_action).length
        (mdFiles s.approved).length
        ((s.done.filter fun f => f.name.ext == "md" && f.mtime == env.today).length)) } := by
  unfold update_dashboard consoleLog
  simp

theorem psf_spec (env : Env) (o : Oracle) (s : VaultState) (f : FileEntry) :
    process_single_file env o s f =
      if o.readFails f.name then (consoleLog s (.processing f.name.full), false)
      else if o.writePlanFails f.name || !(s.existingDirs.contains "Plans") then
        (log_action env (consoleLog s (.processing f.name.full)) "process_file" f.name.full, false)
      else
        (update_dashboard env (consoleLog
          { log_action env (consoleLog s (.processing f.name.full)) "process_file" f.name.full
            with plans := writeFile s.plans (planFName f) (create_plan_template env f) env.today }
          (.createdPlan (planFName f).full)), true) := rfl

theorem eaa_spec (env : Env) (o : Oracle) (s : VaultState) (f : FileEntry) :
    execute_approved_action env o s f =
      if o.readFails f.name then (consoleLog s (.executingApproved f.name.full), false)
      else if o.renameFails f.name then
        (log_action env (consoleLog s (.executingApproved f.name.full)) "execute_approved" f.name.full, false)
      else
        (update_dashboard env (consoleLog
          { log_action env (consoleLog s (.executingApproved f.name.full)) "execute_approved" f.name.full
            with approved := eraseFile s.approved f.name,
                 done := writeFile s.done f.name f.content f.mtime }
          (.movedToDone f.name.full)), true) := rfl

/-! ### Frame relations for the two phases -/

/-- Fields untouched by intake processing: every lifecycle directory. -/
def naFrame (a b : VaultState) : Prop :=
  a.needs_action = b.needs_action ∧ a.approved = b.approved ∧ a.done = b.done
  ∧ a.pending_approval = b.pending_approval ∧ a.inbox = b.inbox
  ∧ a.inboxExists = b.inboxExists ∧ a.existingDirs = b.existingDirs

/-- Fields untouched by approved execution. -/
def apFrame (a b : VaultState) : Prop :=
  a.needs_action = b.needs_action ∧ a.pending_approval = b.pending_approval
  ∧ a.inbox = b.inbox ∧ a.inboxExists = b.inboxExists
  ∧ a.existingDirs = b.existingDirs ∧ a.plans = b.plans

theorem naFrame_refl (a : VaultState) : naFrame a a :=
  ⟨rfl, rfl, rfl, rfl, rfl, rfl, rfl⟩

theorem naFrame_trans {a b c : VaultState} (h1 : naFrame a b) (h2 : naFrame b c) :
    naFrame a c := by
  obtain ⟨x1, x2, x3, x4, x5, x6, x7⟩ := h1
  obtain ⟨y1, y2, y3, y4, y5, y6, y7⟩ := h2
  exact ⟨x1.trans y1, x2.trans y2, x3.trans y3, x4.trans y4, x5.trans y5,
    x6.trans y6, x7.trans y7⟩

theorem apFrame_refl (a : VaultState) : apFrame a a :=
  ⟨rfl, rfl, rfl, rfl, rfl, rfl⟩

theorem apFrame_trans {a b c : VaultState} (h1 : apFrame a b) (h2 : apFrame b c) :
    apFrame a c := by
  obtain ⟨x1, x2, x3, x4, x5, x6⟩ := h1
  obtain ⟨y1, y2, y3, y4, y5, y6⟩ := h2
  exact ⟨x1.trans y1, x2.trans y2, x3.trans y3, x4.trans y4, x5.trans y5, x6.trans y6⟩

theorem consoleLog_naFrame (s : VaultState) (m : ConsoleMsg) :
    naFrame (consoleLog s m) s := ⟨rfl, rfl, rfl, rfl, rfl, rfl, rfl⟩

theorem consoleLog_apFrame (s : VaultState) (m : ConsoleMsg) :
    apFrame (consoleLog s m) s := ⟨rfl, rfl, rfl, rfl, rfl, rfl⟩

theorem ud_naFrame (env : Env) (s : VaultState) :
    naFrame (update_dashboard env s) s := by
  rw [update_dashboard_spec]
  exact ⟨rfl, rfl, rfl, rfl, rfl, rfl, rfl⟩

theorem ud_apFrame (env : Env) (s : VaultState) :
    apFrame (update_dashboard env s) s := by
  rw [update_dashboard_spec]
  exact ⟨rfl, rfl, rfl, rfl, rfl, rfl⟩

theorem psf_naFrame (env : Env) (o : Oracle) (s : VaultState) (f : FileEntry) :
    naFrame (process_single_file env o s f).1 s := by
  rw [psf_spec]
  by_cases hr : o.readFails f.name
  · simp only [hr, if_true]
    exact consoleLog_naFrame s _
  · simp only [hr, Bool.false_eq_true, if_false]
    by_cases hw : (o.writePlanFails f.name || !(s.existingDirs.contains "Plans")) = true
    · simp only [hw, if_true]
      exact ⟨rfl, rfl, rfl, rfl, rfl, rfl, rfl⟩
    · simp only [hw, Bool.false_eq_true, if_false]
      refine naFrame_trans (ud_naFrame env _) ?_
      exact ⟨rfl, rfl, rfl, rfl, rfl, rfl, rfl⟩

theorem eaa_apFrame (env : Env) (o : Oracle) (s : VaultState) (f : FileEntry) :
    apFrame (execute_approved_action env o s f).1 s := by
  rw [eaa_spec]
  by_cases hr : o.readFails f.name
  · simp only [hr, if_true]
    exact consoleLog_apFrame s _
  · simp only [hr, Bool.false_eq_true, if_false]
    by_cases hw : o.renameFails f.name
    · simp only [hw, if_true]
      exact ⟨rfl, rfl, rfl, rfl, rfl, rfl⟩
    · simp only [hw, Bool.false_eq_true, if_false]
      refine apFrame_trans (ud_apFrame env _) ?_
      exact ⟨rfl, rfl, rfl, rfl, rfl, rfl⟩

theorem naStep_spec (env : Env) (o : Oracle) (acc : VaultState × Nat) (f : FileEntry) :
    naStep env o acc f =
      if (process_single_file env o acc.1 f).2
      then ((process_single_file env o acc.1 f).1, acc.2 + 1)
      else (consoleLog (process_single_file env o acc.1 f).1 (.errorProcessing f.name.full),
        acc.2) := rfl

theorem apStep_spec (env : Env) (o : Oracle) (acc : VaultState × Nat) (f : FileEntry) :
    apStep env o acc f =
      if (execute_approved_action env o acc.1 f).2
      then ((execute_approved_action env o acc.1 f).1, acc.2 + 1)
      else (consoleLog (execute_approved_action env o acc.1 f).1 (.errorExecuting f.name.full),
        acc.2) := rfl

theorem naStep_naFrame (env : Env) (o : Oracle) (acc : VaultState × Nat) (f : FileEntry) :
    naFrame (naStep env o acc f).1 acc.1 := by
  rw [naStep_spec]
  by_cases hp : (process_single_file env o acc.1 f).2
  · simp only [hp, if_true]
    exact psf_naFrame env o acc.1 f
  · simp only [hp, Bool.false_eq_true, if_false]
    exact naFrame_trans (consoleLog_naFrame _ _) (psf_naFrame env o acc.1 f)

theorem apStep_apFrame (env : Env) (o : Oracle) (acc : VaultState × Nat) (f : FileEntry) :
    apFrame (apStep env o acc f).1 acc.1 := by
  rw [apStep_spec]
  by_cases hp : (execute_approved_action env o acc.1 f).2
  · simp only [hp, if_true]
    exact eaa_apFrame env o acc.1 f
  · simp only [hp, Bool.false_eq_true, if_false]
    exact apFrame_trans (consoleLog_apFrame _ _) (eaa_apFrame env o acc.1 f)

theorem naLoop_naFrame (env : Env) (o : Oracle) :
    ∀ (l : List FileEntry) (acc : VaultState × Nat),
      naFrame (l.foldl (naStep env o) acc).1 acc.1 := by
  intro l
  induction l with
  | nil => intro acc; exact naFrame_refl acc.1
  | cons f t ih =>
    intro acc
    rw [List.foldl_cons]
    exact naFrame_trans (ih (naStep env o acc f)) (naStep_naFrame env o acc f)

theorem apLoop_apFrame (env : Env) (o : Oracle) :
    ∀ (l : List FileEntry) (acc : VaultState × Nat),
      apFrame (l.foldl (apStep env o) acc).1 acc.1 := by
  intro l
  induction l with
  | nil => intro acc; exact apFrame_refl acc.1
  | cons f t ih =>
    intro acc
    rw [List.foldl_cons]
    exact apFrame_trans (ih (apStep env o acc f)) (apStep_apFrame env o acc f)

theorem pna_naFrame (env : Env) (o : Oracle) (s : VaultState) :
    naFrame (process_needs_action env o s).1 s := by
  unfold process_needs_action
  by_cases he : (mdFiles s.needs_action).isEmpty
  · simp only [he, if_true]
    exact consoleLog_naFrame s _
  · simp only [he, Bool.false_eq_true, if_false]
    refine naFrame_trans (consoleLog_naFrame _ _) ?_
    refine naFrame_trans (naLoop_naFrame env o _ _) ?_
    exact consoleLog_naFrame s _

theorem pa_apFrame (env : Env) (o : Oracle) (s : VaultState) :
    apFrame (process_approved env o s).1 s := by
  unfold process_approved
  by_cases he : (mdFiles s.approved).isEmpty
  · simp only [he, if_true]
    exact consoleLog_apFrame s _
  · simp only [he, Bool.false_eq_true, if_false]
    refine apFrame_trans (apLoop_apFrame env o _ _) ?_
    exact consoleLog_apFrame s _

/-! ### Concrete scenario states -/

def envBase : Env := ⟨"2026-10-12T09:00:00", "2026-10-12 09:00:00", 20739⟩

def benignOracle : Oracle := ⟨fun _ => false, fun _ => false, fun _ => false⟩

/-- A vault directory before the orchestrator is ever constructed, with
one action file waiting in `Needs_Action`. -/
def freshVault : VaultState :=
  { inboxExists := false, inbox := [],
    needs_action := [⟨⟨"task", "md"⟩, "please do this", 20739⟩],
    plans := [], pending_approval := [], approved := [], done := [],
    existingDirs := [], dashboard := none, log := [], console := [] }

/-- Claim C1 (code bug): `Orchestrator.__init__` creates only
`Needs_Action`, `Approved`, `Done` and `Logs` (source lines 65-67); the
`Plans` and `Pending_Approval` directories are not created, so on a
fresh vault the plan write of `_process_single_file` (line 139-141)
raises and `process_needs_action` processes zero files and writes no
plan, contrary to the required auto-created directory layout. -/
theorem init_missing_plans_dir :
    (orchestratorInit freshVault).existingDirs = ["Needs_Action", "Approved", "Done", "Logs"]
    ∧ (orchestratorInit freshVault).existingDirs.contains "Plans" = false
    ∧ (orchestratorInit freshVault).existingDirs.contains "Pending_Approval" = false
    ∧ (process_needs_action envBase benignOracle (orchestratorInit freshVault)).2 = 0
    ∧ (process_needs_action envBase benignOracle (orchestratorInit freshVault)).1.plans = [] := by
  exact ⟨rfl, by decide, by decide, rfl, rfl⟩

/-- A vault with one approved `.md` file and an empty `Pending_Approval`
directory. -/
def approvedOnlyVault : VaultState :=
  { inboxExists := false, inbox := [], needs_action := [],
    plans := [], pending_approval := [],
    approved := [⟨⟨"offer", "md"⟩, "send the offer", 20739⟩], done := [],
    existingDirs := ["Needs_Action", "Approved", "Done", "Logs"],
    dashboard := none, log := [], console := [] }

/-- Claim C2 (code bug): on a state whose `Pending_Approval` directory
is empty but whose `Approved` directory holds one `.md` file,
`update_dashboard` renders `1` as the `Awaiting Approval` /
`/Pending_Approval` figure: source line 284 computes `pending_count`
from `self.approved`, not from the `Pending_Approval` directory. -/
theorem dashboard_pending_figure_counts_approved :
    approvedOnlyVault.pending_approval.length = 0
    ∧ (mdFiles approvedOnlyVault.approved).length = 1
    ∧ (update_dashboard envBase approvedOnlyVault).dashboard
        = some (dashboardContent envBase 0 0 1 0) := by
  exact ⟨rfl, rfl, rfl⟩

/-- Claim C7: with no `.md` file in the intake directory,
`process_needs_action` returns `0`, appends the no-items event to the
console log, and changes nothing else: no directory, no jsonl log entry
and no dashboard write. -/
theorem process_needs_action_empty_intake (env : Env) (o : Oracle) (s : VaultState)
    (h : mdFiles s.needs_action = []) :
    process_needs_action env o s
      = ({ s with console := s.console ++ [.noFilesToProcess] }, 0) := by
  unfold process_needs_action
  rw [h]
  rfl

/-- A vault whose intake directory holds only a non-markdown file. -/
def emptyIntakeVault : VaultState :=
  { inboxExists := false, inbox := [],
    needs_action := [⟨⟨"notes", "txt"⟩, "not an action file", 20739⟩],
    plans := [], pending_approval := [], approved := [], done := [],
    existingDirs := ["Needs_Action", "Approved", "Done", "Logs", "Plans"],
    dashboard := none, log := [], console := [] }

theorem process_needs_action_empty_intake_witness :
    mdFiles emptyIntakeVault.needs_action = []
    ∧ process_needs_action envBase benignOracle emptyIntakeVault
        = ({ emptyIntakeVault with
              console := emptyIntakeVault.console ++ [.noFilesToProcess] }, 0) :=
  ⟨by decide, process_needs_action_empty_intake envBase benignOracle emptyIntakeVault (by decide)⟩

/-- Claim C9: `run_once` is exactly the fixed sequence `process_approved`,
then `process_needs_action`, then one dashboard regeneration (plus the
two cycle console messages), and it mutates no other lifecycle state:
the intake, pending-approval and inbox directories and the directory
layout are left untouched by a cycle. -/
theorem run_once_fixed_sequence (env : Env) (o : Oracle) (s : VaultState) :
    run_once env o s
      = consoleLog (update_dashboard env
          (process_needs_action env o
            (process_approved env o (consoleLog s .runningCycle)).1).1) .cycleComplete
    ∧ (run_once env o s).needs_action = s.needs_action
    ∧ (run_once env o s).pending_approval = s.pending_approval
    ∧ (run_once env o s).inbox = s.inbox
    ∧ (run_once env o s).existingDirs = s.existingDirs := by
  refine ⟨rfl, ?_, ?_, ?_, ?_⟩
  · exact ((ud_naFrame env _).1.trans
      ((pna_naFrame env o _).1.trans (pa_apFrame env o _).1))
  · exact ((ud_naFrame env _).2.2.2.1.trans
      ((pna_naFrame env o _).2.2.2.1.trans (pa_apFrame env o _).2.1))
  · exact ((ud_naFrame env _).2.2.2.2.1.trans
      ((pna_naFrame env o _).2.2.2.2.1.trans (pa_apFrame env o _).2.2.1))
  · exact ((ud_naFrame env _).2.2.2.2.2.2.trans
      ((pna_naFrame env o _).2.2.2.2.2.2.trans (pa_apFrame env o _).2.2.2.2.1))

/-! ### Approved→Done atomicity (per file and per batch) -/

theorem eaa_dirs (env : Env) (o : Oracle) (s : VaultState) (g : FileEntry) :
    ((execute_approved_action env o s g).1.approved = s.approved
      ∧ (execute_approved_action env o s g).1.done = s.done)
    ∨ ((execute_approved_action env o s g).1.approved = eraseFile s.approved g.name
      ∧ (execute_approved_action env o s g).1.done
          = writeFile s.done g.name g.content g.mtime) := by
  rw [eaa_spec]
  by_cases hr : o.readFails g.name
  · left
    simp only [hr, if_true]
    exact ⟨rfl, rfl⟩
  · simp only [hr, Bool.false_eq_true, if_false]
    by_cases hw : o.renameFails g.name
    · left
      simp only [hw, if_true]
      exact ⟨rfl, rfl⟩
    · right
      simp only [hw, Bool.false_eq_true, if_false]
      exact ⟨(ud_naFrame env _).2.1, (ud_naFrame env _).2.2.1⟩

theorem eaa_atomic_aux (env : Env) (o : Oracle) (s : VaultState) (f : FileEntry)
    (hf : f ∈ s.approved) (hnd : inDir s.done f.name = false) :
    (f ∈ (execute_approved_action env o s f).1.approved
      ∧ inDir (execute_approved_action env o s f).1.done f.name = false
      ∧ (execute_approved_action env o s f).1.approved = s.approved
      ∧ (execute_approved_action env o s f).1.done = s.done)
    ∨ (inDir (execute_approved_action env o s f).1.approved f.name = false
      ∧ inDir (execute_approved_action env o s f).1.done f.name = true) := by
  rcases eaa_dirs env o s f with ⟨ha, hb⟩ | ⟨ha, hb⟩
  · left
    refine ⟨ha ▸ hf, hb ▸ hnd, ha, hb⟩
  · right
    constructor
    · rw [ha]
      exact inDir_eraseFile_self s.approved f.name
    · rw [hb]
      exact inDir_writeFile_self s.done f.name f.content f.mtime

theorem apStep_dirs (env : Env) (o : Oracle) (acc : VaultState × Nat) (g : FileEntry) :
    (apStep env o acc g).1.approved = (execute_approved_action env o acc.1 g).1.approved
    ∧ (apStep env o acc g).1.done = (execute_approved_action env o acc.1 g).1.done := by
  rw [apStep_spec]
  by_cases hp : (execute_approved_action env o acc.1 g).2
  · simp [hp]
  · simp [hp, consoleLog]

theorem apStep_track {env : Env} {o : Oracle} {acc : VaultState × Nat} {g f : FileEntry}
    (hg : g.name ≠ f.name) :
    ((f ∈ acc.1.approved ∧ inDir acc.1.done f.name = false) →
      f ∈ (apStep env o acc g).1.approved ∧ inDir (apStep env o acc g).1.done f.name = false)
    ∧ ((inDir acc.1.approved f.name = false ∧ inDir acc.1.done f.name = true) →
      inDir (apStep env o acc g).1.approved f.name = false
      ∧ inDir (apStep env o acc g).1.done f.name = true) := by
  have hd := apStep_dirs env o acc g
  rcases eaa_dirs env o acc.1 g with ⟨ha, hb⟩ | ⟨ha, hb⟩
  · rw [hd.1, hd.2, ha, hb]
    exact ⟨fun h => h, fun h => h⟩
  · rw [hd.1, hd.2, ha, hb]
    constructor
    · intro ⟨h1, h2⟩
      refine ⟨mem_eraseFile_of_ne h1 (Ne.symm hg) , ?_⟩
      rw [inDir_writeFile_of_ne (Ne.symm hg)]
      exact h2
    · intro ⟨h1, h2⟩
      constructor
      · rw [inDir_eraseFile_of_ne (Ne.symm hg)]
        exact h1
      · rw [inDir_writeFile_of_ne (Ne.symm hg)]
        exact h2

theorem apLoop_untouched (env : Env) (o : Oracle) (f : FileEntry) :
    ∀ (l : List FileEntry) (acc : VaultState × Nat),
      (∀ g ∈ l, g.name ≠ f.name) →
      f ∈ acc.1.approved → inDir acc.1.done f.name = false →
      f ∈ (l.foldl (apStep env o) acc).1.approved
      ∧ inDir (l.foldl (apStep env o) acc).1.done f.name = false := by
  intro l
  induction l with
  | nil => intro acc _ h1 h2; exact ⟨h1, h2⟩
  | cons g t ih =>
    intro acc hn h1 h2
    rw [List.foldl_cons]
    have hg : g.name ≠ f.name := hn g (List.mem_cons_self _ _)
    have hstep := (@apStep_track env o acc g f hg).1 ⟨h1, h2⟩
    exact ih _ (fun x hx => hn x (List.mem_cons_of_mem _ hx)) hstep.1 hstep.2

theorem apLoop_tracks (env : Env) (o : Oracle) (f : FileEntry) :
    ∀ (l : List FileEntry) (acc : VaultState × Nat),
      (∀ g ∈ l, g.name ≠ f.name) →
      ((f ∈ acc.1.approved ∧ inDir acc.1.done f.name = false)
        ∨ (inDir acc.1.approved f.name = false ∧ inDir acc.1.done f.name = true)) →
      ((f ∈ (l.foldl (apStep env o) acc).1.approved
          ∧ inDir (l.foldl (apStep env o) acc).1.done f.name = false)
        ∨ (inDir (l.foldl (apStep env o) acc).1.approved f.name = false
          ∧ inDir (l.foldl (apStep env o) acc).1.done f.name = true)) := by
  intro l
  induction l with
  | nil => intro acc _ h; exact h
  | cons g t ih =>
    intro acc hn h
    rw [List.foldl_cons]
    have hg : g.name ≠ f.name := hn g (List.mem_cons_self _ _)
    refine ih _ (fun x hx => hn x (List.mem_cons_of_mem _ hx)) ?_
    rcases h with h | h
    · exact Or.inl ((apStep_track hg).1 h)
    · exact Or.inr ((apStep_track hg).2 h)

/-- Claim C3: for a file present in `Approved` (with the directory
invariants that names are unique and the file is not already in `Done`),
a `process_approved` run either leaves that file's entry in `Approved`
untouched and absent from `Done` (this is what happens when its `rename`
or `read_text` raises - the source file is never deleted), or moves it
fully: absent from `Approved` and present in `Done`.  No outcome leaves
it in neither or in both directories. -/
theorem process_approved_move_atomic (env : Env) (o : Oracle) (s : VaultState) (f : FileEntry)
    (hf : f ∈ mdFiles s.approved)
    (hnd : inDir s.done f.name = false)
    (hnodup : ((mdFiles s.approved).map (fun g => g.name)).Nodup) :
    (f ∈ (process_approved env o s).1.approved
      ∧ inDir (process_approved env o s).1.done f.name = false)
    ∨ (inDir (process_approved env o s).1.approved f.name = false
      ∧ inDir (process_approved env o s).1.done f.name = true) := by
  have he : (mdFiles s.approved).isEmpty = false := by
    cases hmd : mdFiles s.approved with
    | nil => rw [hmd] at hf; exact absurd hf (List.not_mem_nil f)
    | cons a t => rfl
  obtain ⟨l1, l2, hsplit⟩ := List.append_of_mem hf
  unfold process_approved
  simp only [he, Bool.false_eq_true, if_false]
  rw [hsplit, List.foldl_append, List.foldl_cons]
  have hmap : ((l1 ++ f :: l2).map (fun g => g.name)).Nodup := hsplit ▸ hnodup
  rw [List.map_append, List.map_cons] at hmap
  have hmid := List.nodup_middle.mp hmap
  have hnotmem : f.name ∉ (l1.map (fun g => g.name) ++ l2.map (fun g => g.name)) :=
    (List.nodup_cons.mp hmid).1
  have hn1 : ∀ g ∈ l1, g.name ≠ f.name := by
    intro g hg heq
    exact hnotmem (List.mem_append_left _ (heq ▸ List.mem_map_of_mem _ hg))
  have hn2 : ∀ g ∈ l2, g.name ≠ f.name := by
    intro g hg heq
    exact hnotmem (List.mem_append_right _ (heq ▸ List.mem_map_of_mem _ hg))
  have hfap : f ∈ s.approved := (List.mem_filter.mp hf).1
  have h1 := apLoop_untouched env o f l1
    (consoleLog s (.foundApproved (l1 ++ f :: l2).length), 0) hn1 hfap hnd
  have h2 := eaa_atomic_aux env o
    (l1.foldl (apStep env o) (consoleLog s (.foundApproved (l1 ++ f :: l2).length), 0)).1
    f h1.1 h1.2
  have hd := apStep_dirs env o
    (l1.foldl (apStep env o) (consoleLog s (.foundApproved (l1 ++ f :: l2).length), 0)) f
  refine apLoop_tracks env o f l2 _ hn2 ?_
  rcases h2 with ⟨ha, hb, _, _⟩ | ⟨ha, hb⟩
  · left
    rw [hd.1, hd.2]
    exact ⟨ha, hb⟩
  · right
    rw [hd.1, hd.2]
    exact ⟨ha, hb⟩

def reqFile : FileEntry := ⟨⟨"req", "md"⟩, "pay invoice", 20700⟩

def approvedStuckVault : VaultState :=
  { inboxExists := false, inbox := [], needs_action := [], plans := [],
    pending_approval := [], approved := [reqFile], done := [],
    existingDirs := ["Needs_Action", "Approved", "Done", "Logs"],
    dashboard := none, log := [], console := [] }

def renameFailOracle : Oracle := ⟨fun _ => false, fun _ => false, fun _ => true⟩

theorem process_approved_move_atomic_witness :
    reqFile ∈ mdFiles approvedStuckVault.approved
    ∧ inDir approvedStuckVault.done reqFile.name = false
    ∧ ((mdFiles approvedStuckVault.approved).map (fun g => g.name)).Nodup
    ∧ ((reqFile ∈ (process_approved envBase renameFailOracle approvedStuckVault).1.approved
        ∧ inDir (process_approved envBase renameFailOracle approvedStuckVault).1.done
            reqFile.name = false)
      ∨ (inDir (process_approved envBase renameFailOracle approvedStuckVault).1.approved
            reqFile.name = false
        ∧ inDir (process_approved envBase renameFailOracle approvedStuckVault).1.done
            reqFile.name = true)) :=
  ⟨by decide, by decide, by decide,
    process_approved_move_atomic envBase renameFailOracle approvedStuckVault reqFile
      (by decide) (by decide) (by decide)⟩

/-! ### Effects of single-file processing and log evolution -/

theorem ud_plans (env : Env) (s : VaultState) :
    (update_dashboard env s).plans = s.plans := by
  rw [update_dashboard_spec]

theorem ud_log (env : Env) (s : VaultState) :
    (update_dashboard env s).log = s.log := by
  rw [update_dashboard_spec]

theorem consoleLog_log (s : VaultState) (m : ConsoleMsg) :
    (consoleLog s m).log = s.log := rfl

theorem psf_plans_cases (env : Env) (o : Oracle) (s : VaultState) (f : FileEntry) :
    (process_single_file env o s f).1.plans = s.plans
    ∨ (process_single_file env o s f).1.plans
        = writeFile s.plans (planFName f) (create_plan_template env f) env.today := by
  rw [psf_spec]
  by_cases hr : o.readFails f.name
  · left
    simp only [hr, if_true]
    rfl
  · simp only [hr, Bool.false_eq_true, if_false]
    by_cases hw : (o.writePlanFails f.name || !(s.existingDirs.contains "Plans")) = true
    · left
      simp only [hw, if_true]
      rfl
    · right
      simp only [hw, Bool.false_eq_true, if_false]
      rw [ud_plans]
      rfl

theorem psf_log_cases (env : Env) (o : Oracle) (s : VaultState) (f : FileEntry) :
    (process_single_file env o s f).1.log = s.log
    ∨ (process_single_file env o s f).1.log
        = s.log ++ [mkLogEntry env "process_file" f.name.full] := by
  rw [psf_spec]
  by_cases hr : o.readFails f.name
  · left
    simp only [hr, if_true]
    rfl
  · simp only [hr, Bool.false_eq_true, if_false]
    by_cases hw : (o.writePlanFails f.name || !(s.existingDirs.contains "Plans")) = true
    · right
      simp only [hw, if_true]
      rfl
    · right
      simp only [hw, Bool.false_eq_true, if_false]
      rw [ud_log]
      rfl

theorem eaa_log_cases (env : Env) (o : Oracle) (s : VaultState) (f : FileEntry) :
    (execute_approved_action env o s f).1.log = s.log
    ∨ (execute_approved_action env o s f).1.log
        = s.log ++ [mkLogEntry env "execute_approved" f.name.full] := by
  rw [eaa_spec]
  by_cases hr : o.readFails f.name
  · left
    simp only [hr, if_true]
    rfl
  · simp only [hr, Bool.false_eq_true, if_false]
    by_cases hw : o.renameFails f.name
    · right
      simp only [hw, if_true]
      rfl
    · right
      simp only [hw, Bool.false_eq_true, if_false]
      rw [ud_log]
      rfl

/-- Claim C8: processing one intake file neither removes it from the
intake directory nor moves it to any other lifecycle directory nor edits
its content (the whole `Needs_Action` listing - names and contents - is
unchanged, as are `Approved`, `Done`, `Pending_Approval`, the inbox and
the directory layout); its only effects are an optional companion-plan
write `PLAN_<stem>.md`, an optional appended `process_file` log record,
and an optional dashboard regeneration. -/
theorem process_single_file_frame (env : Env) (o : Oracle) (s : VaultState) (f : FileEntry) :
    (process_single_file env o s f).1.needs_action = s.needs_action
    ∧ (process_single_file env o s f).1.approved = s.approved
    ∧ (process_single_file env o s f).1.done = s.done
    ∧ (process_single_file env o s f).1.pending_approval = s.pending_approval
    ∧ (process_single_file env o s f).1.inbox = s.inbox
    ∧ (process_single_file env o s f).1.existingDirs = s.existingDirs
    ∧ ((process_single_file env o s f).1.plans = s.plans
        ∨ (process_single_file env o s f).1.plans
            = writeFile s.plans (planFName f) (create_plan_template env f) env.today)
    ∧ ((process_single_file env o s f).1.log = s.log
        ∨ (process_single_file env o s f).1.log
            = s.log ++ [mkLogEntry env "process_file" f.name.full])
    ∧ ((process_single_file env o s f).1.dashboard = s.dashboard
        ∨ (process_single_file env o s f).1.dashboard = (update_dashboard env s).dashboard) := by
  have hfr := psf_naFrame env o s f
  refine ⟨hfr.1, hfr.2.1, hfr.2.2.1, hfr.2.2.2.1, hfr.2.2.2.2.1, hfr.2.2.2.2.2.2,
    psf_plans_cases env o s f, psf_log_cases env o s f, ?_⟩
  rw [psf_spec]
  by_cases hr : o.readFails f.name
  · left
    simp only [hr, if_true]
    rfl
  · simp only [hr, Bool.false_eq_true, if_false]
    by_cases hw : (o.writePlanFails f.name || !(s.existingDirs.contains "Plans")) = true
    · left
      simp only [hw, if_true]
      rfl
    · right
      simp only [hw, Bool.false_eq_true, if_false]
      rw [update_dashboard_spec, update_dashboard_spec]
      rfl

/-! ### All structured log records carry `result = "success"` -/

def allSuccess (l : List LogEntry) : Bool := l.all fun e => e.result == "success"

theorem allSuccess_append {l1 l2 : List LogEntry} :
    allSuccess (l1 ++ l2) = (allSuccess l1 && allSuccess l2) := List.all_append

theorem psf_allSuccess (env : Env) (o : Oracle) (s : VaultState) (f : FileEntry)
    (h : allSuccess s.log = true) :
    allSuccess (process_single_file env o s f).1.log = true := by
  rcases psf_log_cases env o s f with hl | hl
  · rw [hl]; exact h
  · rw [hl, allSuccess_append, h]; rfl

theorem eaa_allSuccess (env : Env) (o : Oracle) (s : VaultState) (f : FileEntry)
    (h : allSuccess s.log = true) :
    allSuccess (execute_approved_action env o s f).1.log = true := by
  rcases eaa_log_cases env o s f with hl | hl
  · rw [hl]; exact h
  · rw [hl, allSuccess_append, h]; rfl

theorem naStep_log (env : Env) (o : Oracle) (acc : VaultState × Nat) (f : FileEntry) :
    (naStep env o acc f).1.log = (process_single_file env o acc.1 f).1.log := by
  rw [naStep_spec]
  by_cases hp : (process_single_file env o acc.1 f).2
  · simp only [hp, if_true]
  · simp only [hp, Bool.false_eq_true, if_false]
    rfl

theorem apStep_log (env : Env) (o : Oracle) (acc : VaultState × Nat) (f : FileEntry) :
    (apStep env o acc f).1.log = (execute_approved_action env o acc.1 f).1.log := by
  rw [apStep_spec]
  by_cases hp : (execute_approved_action env o acc.1 f).2
  · simp only [hp, if_true]
  · simp only [hp, Bool.false_eq_true, if_false]
    rfl

theorem naLoop_allSuccess (env : Env) (o : Oracle) :
    ∀ (l : List FileEntry) (acc : VaultState × Nat),
      allSuccess acc.1.log = true →
      allSuccess (l.foldl (naStep env o) acc).1.log = true := by
  intro l
  induction l with
  | nil => intro acc h; exact h
  | cons f t ih =>
    intro acc h
    rw [List.foldl_cons]
    apply ih
    rw [naStep_log]
    exact psf_allSuccess env o acc.1 f h

theorem apLoop_allSuccess (env : Env) (o : Oracle) :
    ∀ (l : List FileEntry) (acc : VaultState × Nat),
      allSuccess acc.1.log = true →
      allSuccess (l.foldl (apStep env o) acc).1.log = true := by
  intro l
  induction l with
  | nil => intro acc h; exact h
  | cons f t ih =>
    intro acc h
    rw [List.foldl_cons]
    apply ih
    rw [apStep_log]
    exact eaa_allSuccess env o acc.1 f h

theorem pna_allSuccess (env : Env) (o : Oracle) (s : VaultState)
    (h : allSuccess s.log = true) :
    allSuccess (process_needs_action env o s).1.log = true := by
  unfold process_needs_action
  by_cases he : (mdFiles s.needs_action).isEmpty
  · simp only [he, if_true]
    exact h
  · simp only [he, Bool.false_eq_true, if_false]
    exact naLoop_allSuccess env o _ _ h

theorem pa_allSuccess (env : Env) (o : Oracle) (s : VaultState)
    (h : allSuccess s.log = true) :
    allSuccess (process_approved env o s).1.log = true := by
  unfold process_approved
  by_cases he : (mdFiles s.approved).isEmpty
  · simp only [he, if_true]
    exact h
  · simp only [he, Bool.false_eq_true, if_false]
    exact apLoop_allSuccess env o _ _ h

/-- Claim C10: every structured record appended by the orchestrator has
`result = "success"` - `_log_action` hardcodes it and no cycle path ever
appends anything else - and for an approved file the `execute_approved`
record is appended *before* the rename is attempted, so when the rename
raises the day's log still holds a success record while the file stays
in `Approved`. -/
theorem orchestrator_log_always_success :
    (∀ (env : Env) (a t : String), (mkLogEntry env a t).result = "success")
    ∧ (∀ (env : Env) (o : Oracle) (s : VaultState),
        allSuccess s.log = true → allSuccess (run_once env o s).log = true)
    ∧ (∀ (env : Env) (o : Oracle) (s : VaultState) (f : FileEntry),
        o.readFails f.name = false → o.renameFails f.name = true →
        (execute_approved_action env o s f).1.log
            = s.log ++ [mkLogEntry env "execute_approved" f.name.full]
        ∧ (execute_approved_action env o s f).1.approved = s.approved
        ∧ (execute_approved_action env o s f).1.done = s.done) := by
  refine ⟨fun env a t => rfl, ?_, ?_⟩
  · intro env o s h
    have h1 : allSuccess (consoleLog s .runningCycle).log = true := h
    have h2 := pa_allSuccess env o _ h1
    have h3 := pna_allSuccess env o _ h2
    show allSuccess (run_once env o s).log = true
    have h4 : (run_once env o s).log
        = (process_needs_action env o
            (process_approved env o (consoleLog s .runningCycle)).1).1.log := by
      show (consoleLog (update_dashboard env _) _).log = _
      rw [consoleLog_log, ud_log]
    rw [h4]
    exact h3
  · intro env o s f h1 h2
    rw [eaa_spec]
    simp only [h1, Bool.false_eq_true, if_false, h2, if_true]
    exact ⟨rfl, rfl, rfl⟩

theorem orchestrator_log_always_success_witness :
    allSuccess approvedStuckVault.log = true
    ∧ allSuccess (run_once envBase renameFailOracle approvedStuckVault).log = true
    ∧ renameFailOracle.readFails reqFile.name = false
    ∧ renameFailOracle.renameFails reqFile.name = true
    ∧ (execute_approved_action envBase renameFailOracle approvedStuckVault reqFile).1.log
        = approvedStuckVault.log ++ [mkLogEntry envBase "execute_approved" reqFile.name.full] :=
  ⟨rfl,
   orchestrator_log_always_success.2.1 envBase renameFailOracle approvedStuckVault rfl,
   rfl, rfl,
   (orchestrator_log_always_success.2.2 envBase renameFailOracle approvedStuckVault reqFile
      rfl rfl).1⟩

/-! ### Partial-batch resilience of intake processing -/

/-- Whether the per-item I/O of `_process_single_file` raises for a given
file (its `read_text` or its plan `write_text`). -/
def failsOn (o : Oracle) (f : FileEntry) : Bool :=
  o.readFails f.name || o.writePlanFails f.name

theorem psf_ok (env : Env) (o : Oracle) (s : VaultState) (f : FileEntry)
    (hdir : s.existingDirs.contains "Plans" = true) :
    (process_single_file env o s f).2 = !failsOn o f := by
  rw [psf_spec]
  unfold failsOn
  have hmem : "Plans" ∈ s.existingDirs := by
    simpa using hdir
  by_cases hr : o.readFails f.name
  · simp [hr]
  · by_cases hw : o.writePlanFails f.name
    · simp [hr, hw, hdir]
    · simp [hr, hw, hdir, hmem]

theorem psf_plans_fail (env : Env) (o : Oracle) (s : VaultState) (f : FileEntry)
    (hf : failsOn o f = true) :
    (process_single_file env o s f).1.plans = s.plans := by
  rw [psf_spec]
  by_cases hr : o.readFails f.name
  · simp only [hr, if_true]
    rfl
  · have hr' : o.readFails f.name = false := by
      cases h2 : o.readFails f.name
      · rfl
      · exact absurd h2 hr
    have hw : o.writePlanFails f.name = true := by
      unfold failsOn at hf
      rw [hr'] at hf
      simpa using hf
    simp only [hr, Bool.false_eq_true, if_false, hw, Bool.true_or, if_true]
    rfl

theorem psf_plans_ok (env : Env) (o : Oracle) (s : VaultState) (f : FileEntry)
    (hdir : s.existingDirs.contains "Plans" = true) (hnf : failsOn o f = false) :
    (process_single_file env o s f).1.plans
      = writeFile s.plans (planFName f) (create_plan_template env f) env.today := by
  have hr : o.readFails f.name = false := by
    cases h2 : o.readFails f.name
    · rfl
    · unfold failsOn at hnf
      rw [h2] at hnf
      simp at hnf
  have hw : o.writePlanFails f.name = false := by
    cases h2 : o.writePlanFails f.name
    · rfl
    · unfold failsOn at hnf
      rw [h2] at hnf
      simp at hnf
  rw [psf_spec]
  simp only [hr, Bool.false_eq_true, if_false, hw, hdir, Bool.not_true, Bool.false_or, if_false]
  rw [ud_plans]
  rfl

theorem inDir_writeFile_mono {d : List FileEntry} {n : FName} (h : inDir d n = true)
    (m : FName) (c : String) (mt : Nat) : inDir (writeFile d m c mt) n = true := by
  by_cases hnm : n = m
  · subst hnm
    exact inDir_writeFile_self d n c mt
  · rw [inDir_writeFile_of_ne hnm]
    exact h

theorem naStep_plans (env : Env) (o : Oracle) (acc : VaultState × Nat) (f : FileEntry) :
    (naStep env o acc f).1.plans = (process_single_file env o acc.1 f).1.plans := by
  rw [naStep_spec]
  by_cases hp : (process_single_file env o acc.1 f).2
  · simp only [hp, if_true]
  · simp only [hp, Bool.false_eq_true, if_false]
    rfl

theorem naLoop_plan_mono (env : Env) (o : Oracle) (n : FName) :
    ∀ (l : List FileEntry) (acc : VaultState × Nat),
      inDir acc.1.plans n = true →
      inDir (l.foldl (naStep env o) acc).1.plans n = true := by
  intro l
  induction l with
  | nil => intro acc h; exact h
  | cons f t ih =>
    intro acc h
    rw [List.foldl_cons]
    apply ih
    rw [naStep_plans]
    rcases psf_plans_cases env o acc.1 f with hp | hp
    · rw [hp]; exact h
    · rw [hp]; exact inDir_writeFile_mono h _ _ _

theorem naLoop_plan_written (env : Env) (o : Oracle) (f : FileEntry) :
    ∀ (l : List FileEntry) (acc : VaultState × Nat), f ∈ l → failsOn o f = false →
      acc.1.existingDirs.contains "Plans" = true →
      inDir (l.foldl (naStep env o) acc).1.plans (planFName f) = true := by
  intro l
  induction l with
  | nil => intro acc h; exact absurd h (List.not_mem_nil f)
  | cons g t ih =>
    intro acc hmem hnf hdir
    rw [List.foldl_cons]
    rcases List.mem_cons.mp hmem with heq | hmem'
    · subst heq
      apply naLoop_plan_mono
      rw [naStep_plans env o acc f, psf_plans_ok env o acc.1 f hdir hnf]
      exact inDir_writeFile_self _ _ _ _
    · apply ih _ hmem' hnf
      rw [(naStep_naFrame env o acc g).2.2.2.2.2.2]
      exact hdir

theorem naLoop_plan_frame (env : Env) (o : Oracle) (n : FName) :
    ∀ (l : List FileEntry) (acc : VaultState × Nat),
      (∀ f ∈ l, planFName f ≠ n ∨ failsOn o f = true) →
      inDir (l.foldl (naStep env o) acc).1.plans n = inDir acc.1.plans n := by
  intro l
  induction l with
  | nil => intro acc _; rfl
  | cons g t ih =>
    intro acc hl
    rw [List.foldl_cons, ih _ (fun x hx => hl x (List.mem_cons_of_mem _ hx)), naStep_plans]
    rcases hl g (List.mem_cons_self _ _) with hne | hfail
    · rcases psf_plans_cases env o acc.1 g with hp | hp
      · rw [hp]
      · rw [hp, inDir_writeFile_of_ne (Ne.symm hne)]
    · rw [psf_plans_fail env o acc.1 g hfail]

theorem naLoop_count (env : Env) (o : Oracle) :
    ∀ (l : List FileEntry) (acc : VaultState × Nat),
      acc.1.existingDirs.contains "Plans" = true →
      (l.foldl (naStep env o) acc).2 = acc.2 + (l.filter (fun f => !failsOn o f)).length := by
  intro l
  induction l with
  | nil => intro acc _; simp
  | cons f t ih =>
    intro acc hdir
    have hdir' : (process_single_file env o acc.1 f).1.existingDirs.contains "Plans" = true := by
      rw [(psf_naFrame env o acc.1 f).2.2.2.2.2.2]
      exact hdir
    rw [List.foldl_cons, List.filter_cons]
    by_cases hf : failsOn o f = true
    · have h2 : (process_single_file env o acc.1 f).2 = false := by
        rw [psf_ok env o acc.1 f hdir, hf]
        rfl
      have hstep : naStep env o acc f
          = (consoleLog (process_single_file env o acc.1 f).1 (.errorProcessing f.name.full),
             acc.2) := by
        rw [naStep_spec, h2]
        simp
      rw [hstep, ih _ hdir']
      simp [hf]
    · have hf' : failsOn o f = false := by
        cases h2 : failsOn o f
        · rfl
        · exact absurd h2 hf
      have h2 : (process_single_file env o acc.1 f).2 = true := by
        rw [psf_ok env o acc.1 f hdir, hf']
        rfl
      have hstep : naStep env o acc f = ((process_single_file env o acc.1 f).1, acc.2 + 1) := by
        rw [naStep_spec, h2]
        simp
      rw [hstep, ih _ hdir']
      simp only [hf', Bool.not_false, if_true, List.length_cons]
      omega

theorem filter_not_fails_length (fails : FileEntry → Bool) :
    ∀ (l : List FileEntry) (k : FileEntry), l.Nodup → k ∈ l → fails k = true →
      (∀ f ∈ l, f ≠ k → fails f = false) →
      (l.filter (fun f => !fails f)).length = l.length - 1 := by
  intro l
  induction l with
  | nil => intro k _ hk; exact absurd hk (List.not_mem_nil k)
  | cons g t ih =>
    intro k hnd hk hkf hothers
    obtain ⟨hgnotin, hndt⟩ := List.nodup_cons.mp hnd
    rw [List.filter_cons]
    rcases List.mem_cons.mp hk with heq | hkt
    · subst heq
      simp only [hkf, Bool.not_true, Bool.false_eq_true, if_false]
      have hall : ∀ f ∈ t, (!fails f) = true := by
        intro f hf
        have hne : f ≠ k := fun e => hgnotin (e ▸ hf)
        rw [hothers f (List.mem_cons_of_mem _ hf) hne]
        rfl
      rw [List.filter_eq_self.mpr hall]
      simp
    · have hgk : g ≠ k := fun e => hgnotin (e ▸ hkt)
      rw [hothers g (List.mem_cons_self _ _) hgk]
      simp only [Bool.not_false, if_true, List.length_cons]
      rw [ih k hndt hkt hkf (fun f hf hne => hothers f (List.mem_cons_of_mem _ hf) hne)]
      have hpos : 0 < t.length := List.length_pos_of_mem hkt
      omega

theorem planFName_ne {f g : FileEntry} (hf : f.name.ext = "md") (hg : g.name.ext = "md")
    (hne : f.name ≠ g.name) : planFName f ≠ planFName g := by
  intro h
  unfold planFName at h
  have hstem : "PLAN_" ++ f.name.stem = "PLAN_" ++ g.name.stem := congrArg FName.stem h
  have hdata := congrArg String.data hstem
  rw [String.data_append, String.data_append] at hdata
  have hs : f.name.stem = g.name.stem := String.ext (List.append_cancel_left hdata)
  apply hne
  have h1 : f.name = ⟨f.name.stem, f.name.ext⟩ := rfl
  have h2 : g.name = ⟨g.name.stem, g.name.ext⟩ := rfl
  rw [h1, h2, hs, hf, hg]

/-- Claim C6: with `Plans` present, if among the markdown files of the
intake directory exactly one file `k` raises an I/O error while being
processed and the other `N-1` succeed, then `process_needs_action`
catches the error, continues with the remaining files, returns exactly
`N-1`, and afterwards a companion plan file exists for every intake file
except `k` (and none for `k`). -/
theorem process_needs_action_batch_resilience (env : Env) (o : Oracle) (s : VaultState)
    (k : FileEntry)
    (hdir : s.existingDirs.contains "Plans" = true)
    (hk : k ∈ mdFiles s.needs_action)
    (hkf : failsOn o k = true)
    (hothers : ∀ f ∈ mdFiles s.needs_action, f ≠ k → failsOn o f = false)
    (hnodup : ((mdFiles s.needs_action).map (fun g => g.name)).Nodup)
    (hplan0 : inDir s.plans (planFName k) = false) :
    (process_needs_action env o s).2 = (mdFiles s.needs_action).length - 1
    ∧ (∀ f ∈ mdFiles s.needs_action, f ≠ k →
        inDir (process_needs_action env o s).1.plans (planFName f) = true)
    ∧ inDir (process_needs_action env o s).1.plans (planFName k) = false := by
  have he : (mdFiles s.needs_action).isEmpty = false := by
    cases hmd : mdFiles s.needs_action with
    | nil => rw [hmd] at hk; exact absurd hk (List.not_mem_nil k)
    | cons a t => rfl
  have hndl : (mdFiles s.needs_action).Nodup := List.Nodup.of_map _ hnodup
  have hext : ∀ f ∈ mdFiles s.needs_action, f.name.ext = "md" := by
    intro f hf
    exact eq_of_beq (List.mem_filter.mp hf).2
  have hnames : ∀ f ∈ mdFiles s.needs_action, f ≠ k → f.name ≠ k.name := by
    intro f hf hne heq
    exact hne (List.inj_on_of_nodup_map hnodup hf hk heq)
  unfold process_needs_action
  simp only [he, Bool.false_eq_true, if_false]
  refine ⟨?_, ?_, ?_⟩
  · show ((mdFiles s.needs_action).foldl (naStep env o)
        (consoleLog s (.foundFiles (mdFiles s.needs_action).length), 0)).2
      = (mdFiles s.needs_action).length - 1
    rw [naLoop_count env o _ _ hdir,
      filter_not_fails_length (failsOn o) _ k hndl hk hkf hothers]
    omega
  · intro f hf hne
    show inDir ((mdFiles s.needs_action).foldl (naStep env o)
        (consoleLog s (.foundFiles (mdFiles s.needs_action).length), 0)).1.plans
        (planFName f) = true
    exact naLoop_plan_written env o f _ _ hf (hothers f hf hne) hdir
  · have hcond : ∀ f ∈ mdFiles s.needs_action,
        planFName f ≠ planFName k ∨ failsOn o f = true := by
      intro f hf
      by_cases hfk : f = k
      · subst hfk
        exact Or.inr hkf
      · exact Or.inl (planFName_ne (hext f hf) (hext k hk) (hnames f hf hfk))
    show inDir ((mdFiles s.needs_action).foldl (naStep env o)
        (consoleLog s (.foundFiles (mdFiles s.needs_action).length), 0)).1.plans
        (planFName k) = false
    rw [naLoop_plan_frame env o (planFName k) _ _ hcond]
    exact hplan0

def alphaFile : FileEntry := ⟨⟨"alpha", "md"⟩, "first task", 20739⟩

def betaFile : FileEntry := ⟨⟨"beta", "md"⟩, "second task", 20739⟩

def twoIntakeVault : VaultState :=
  { inboxExists := false, inbox := [],
    needs_action := [alphaFile, betaFile],
    plans := [], pending_approval := [], approved := [], done := [],
    existingDirs := ["Needs_Action", "Approved", "Done", "Logs", "Plans"],
    dashboard := none, log := [], console := [] }

def betaReadFailOracle : Oracle := ⟨fun n => n.stem == "beta", fun _ => false, fun _ => false⟩

theorem process_needs_action_batch_resilience_witness :
    twoIntakeVault.existingDirs.contains "Plans" = true
    ∧ betaFile ∈ mdFiles twoIntakeVault.needs_action
    ∧ failsOn betaReadFailOracle betaFile = true
    ∧ (∀ f ∈ mdFiles twoIntakeVault.needs_action, f ≠ betaFile →
        failsOn betaReadFailOracle f = false)
    ∧ ((mdFiles twoIntakeVault.needs_action).map (fun g => g.name)).Nodup
    ∧ inDir twoIntakeVault.plans (planFName betaFile) = false
    ∧ ((process_needs_action envBase betaReadFailOracle twoIntakeVault).2
        = (mdFiles twoIntakeVault.needs_action).length - 1
      ∧ (∀ f ∈ mdFiles twoIntakeVault.needs_action, f ≠ betaFile →
          inDir (process_needs_action envBase betaReadFailOracle twoIntakeVault).1.plans
            (planFName f) = true)
      ∧ inDir (process_needs_action envBase betaReadFailOracle twoIntakeVault).1.plans
          (planFName betaFile) = false) :=
  ⟨by decide, by decide, by decide, by decide, by decide, by decide,
   process_needs_action_batch_resilience envBase betaReadFailOracle twoIntakeVault betaFile
     (by decide) (by decide) (by decide) (by decide) (by decide) (by decide)⟩
